import Mathlib

/-!
Verification of the custom-layer notebook
(`chapter03_deep-neural-networks/custom-layer.ipynb`).

The notebook defines two custom gluon Blocks — a parameterless
`CenteredLayer` and a hand-written fully-connected layer `MyDense` using a
rectifier activation `relu` — an MLP built from three `MyDense` layers, an
accuracy evaluator sharing one module-level metric object, and a training
loop keeping a moving average of the loss.  Tensors are embedded over ℚ
(the notebook's float32 arithmetic, taken exactly); matrices of statically
known shape use `Matrix (Fin m) (Fin n) ℚ`, and dimension-agnostic tensors
a flat list of rationals paired with a shape.

The gluon `Parameter` / `ParameterDict` / deferred-shape machinery is
library code not present in the repository's sources; where a claim is
about it, the corresponding definition is modelled from the spec and says
so in its doc comment.
-/

/-- A dimension-agnostic tensor: a shape together with the flat list of the
entries (row-major). -/
structure Tensor where
  shape : List ℕ
  data : List ℚ
  deriving DecidableEq, Repr

/-- `nd.mean`: the mean over all elements of a tensor. -/
def ndMean (t : Tensor) : ℚ := t.data.sum / (t.data.length : ℚ)

/-- `CenteredLayer.forward(x) = x - nd.mean(x)`: subtract the global mean
from every element, keeping the shape. -/
def CenteredLayer.forward (x : Tensor) : Tensor :=
  ⟨x.shape, x.data.map (fun v => v - ndMean x)⟩

/-- `relu(X) = nd.maximum(X, 0)`, per element. -/
def relu (v : ℚ) : ℚ := max v 0

/-- `MyDense.forward(x) = relu(nd.dot(x, weight) + bias)`, the bias
broadcast over the rows of the batch. -/
def MyDense.forward {m n k : ℕ} (w : Matrix (Fin n) (Fin k) ℚ)
    (b : Fin k → ℚ) (x : Matrix (Fin m) (Fin n) ℚ) :
    Matrix (Fin m) (Fin k) ℚ :=
  fun i j => relu ((∑ l, x i l * w l j) + b j)

/-- View a statically shaped matrix as a `Tensor` (row-major flattening),
to speak about output shapes. -/
def tensorOfMatrix {m n : ℕ} (A : Matrix (Fin m) (Fin n) ℚ) : Tensor :=
  ⟨[m, n], (List.finRange m).flatMap fun i => (List.finRange n).map fun j => A i j⟩

/-- One exponential-moving-average update of the loss:
`.99 * moving_loss + .01 * l`. -/
def emaStep (m l : ℚ) : ℚ := 99 / 100 * m + 1 / 100 * l

/-- The inner batch loop of the training driver, carrying the batch index
`i`: at `i = 0` the moving loss is set to the batch's mean loss, otherwise
it is updated by `emaStep` — exactly the notebook's
`if i == 0: moving_loss = nd.mean(...) else: moving_loss = .99 * ... + .01 * ...`. -/
def runEpochAux : ℕ → ℚ → List ℚ → ℚ
  | _, m, [] => m
  | i, m, l :: rest => runEpochAux (i + 1) (if i = 0 then l else emaStep m l) rest

/-- One epoch of the training driver's moving-loss bookkeeping, given the
incoming `moving_loss` and the epoch's per-batch mean losses. -/
def runEpoch (m0 : ℚ) (losses : List ℚ) : ℚ := runEpochAux 0 m0 losses

/-- The whole training driver's moving-loss bookkeeping: `moving_loss = 0.`
initially, then the nested loop over epochs and batches. -/
def runTraining (epochLosses : List (List ℚ)) : ℚ :=
  epochLosses.foldl runEpoch 0

/-- The moving loss as the claim describes it, stated from the spec's
words for comparison with `runTraining`: one single running EMA over the
whole flat sequence of per-batch mean losses, seeded once by the very
first batch's mean loss. -/
def specGlobalEMA : List ℚ → ℚ
  | [] => 0
  | l :: rest => rest.foldl emaStep l

/-- Modelled from the spec: `mx.metric.Accuracy` is library code not under
the repository's sources; per the spec's collaborator contract it is an
accumulator of running counts, `update(labels, predictions)` mutating the
counts and `get()` returning the ratio snapshot. -/
structure AccMetric where
  numCorrect : ℕ
  numTotal : ℕ
  deriving DecidableEq, Repr

/-- Modelled from the spec: `Accuracy.update([label], [output])` adds the
number of matching label/prediction pairs and the number of labels to the
running counts. -/
def accUpdate (m : AccMetric) (labels preds : List ℕ) : AccMetric :=
  ⟨m.numCorrect + (labels.zip preds).countP (fun p => p.1 == p.2),
   m.numTotal + labels.length⟩

/-- Modelled from the spec: `Accuracy.get()[1]`, the accumulated ratio. -/
def accGet (m : AccMetric) : ℚ := (m.numCorrect : ℚ) / (m.numTotal : ℚ)

/-- The loop body of `evaluate_accuracy`: fold `metric.update([label],
[net(data)])` over the iterator's batches, starting from the metric's
current state. -/
def runEvalBatches {α : Type} (net : α → List ℕ) (m : AccMetric)
    (batches : List (α × List ℕ)) : AccMetric :=
  batches.foldl (fun m b => accUpdate m b.2 (net b.1)) m

/-- `evaluate_accuracy(data_iterator, net)` with the module-level metric
state made explicit: updates the shared metric over all batches and
returns the new metric state together with `metric.get()[1]`. -/
def evaluate_accuracy {α : Type} (net : α → List ℕ) (m : AccMetric)
    (batches : List (α × List ℕ)) : AccMetric × ℚ :=
  let m2 := runEvalBatches net m batches
  (m2, accGet m2)

/-- Modelled from the spec: the error kinds of the parameter machinery
(§7 of the spec); the machinery itself is gluon library code not under the
repository's sources. -/
inductive ParamError where
  | ShapeUndefinedError
  | ShapeMismatchError
  | UninitializedError
  | GradientNotTrackedError
  | KeyNotFoundError
  | NameCollisionError
  deriving DecidableEq, Repr

/-- First-match association lookup, the ordered-dictionary primitive used
by the registry and the per-context storage models. -/
def assocFind {κ β : Type} [DecidableEq κ] : List (κ × β) → κ → Option β
  | [], _ => none
  | e :: rest, k => if e.1 = k then some e.2 else assocFind rest k

/-- Modelled from the spec: `gluon.Parameter` ("NamedTensorHandle") is
library code not under the repository's sources; per the spec's data model
it carries a name, an optional (possibly not yet known) shape, a
gradient-tracking flag, and per-context storage, empty until initialized.
Contexts are identifiers, modelled as naturals. -/
structure NamedTensorHandle where
  name : String
  shape : Option (List ℕ)
  gradReq : Bool
  storage : List (ℕ × Tensor)
  deriving DecidableEq, Repr

/-- Modelled from the spec: `Parameter.data(ctx)` returns the storage
tensor for that context and fails with `UninitializedError` if absent. -/
def NamedTensorHandle.data (h : NamedTensorHandle) (ctx : ℕ) :
    Except ParamError Tensor :=
  match assocFind h.storage ctx with
  | some t => Except.ok t
  | none => Except.error ParamError.UninitializedError

/-- Modelled from the spec: `Parameter.initialize(init, ctxs)` — failing
with `ShapeUndefinedError` when the shape is still unknown, and otherwise,
for each requested context with storage absent, allocating a tensor of the
handle's shape filled by the initializer function. -/
def NamedTensorHandle.initStorage (h : NamedTensorHandle)
    (initFn : List ℕ → ℕ → List ℚ) (ctxs : List ℕ) :
    Except ParamError NamedTensorHandle :=
  match h.shape with
  | none => Except.error ParamError.ShapeUndefinedError
  | some s =>
    Except.ok { h with
      storage := ctxs.foldl
        (fun st c => if (assocFind st c).isSome then st
                     else st ++ [(c, ⟨s, initFn s c⟩)]) h.storage }

/-- Modelled from the spec: `gluon.ParameterDict` ("ParameterRegistry") is
library code not under the repository's sources; a prefix plus an
insertion-ordered mapping from local name to handle. -/
structure ParameterRegistry where
  pfx : String
  items : List (String × NamedTensorHandle)
  deriving DecidableEq, Repr

/-- Modelled from the spec: two optional shape declarations are compatible
unless both are specified and differ. -/
def shapesCompatible : Option (List ℕ) → Option (List ℕ) → Bool
  | some s1, some s2 => s1 == s2
  | _, _ => true

/-- Modelled from the spec: `ParameterDict.get(local_name, shape)` —
returns the existing handle if the local name is already present (the
shapes, when both specified, must match, else `ShapeMismatchError`);
otherwise creates and registers a new handle whose fully-qualified name is
the prefix concatenated with the local name. -/
def ParameterRegistry.get (pd : ParameterRegistry) (localName : String)
    (shape : Option (List ℕ)) :
    Except ParamError (ParameterRegistry × NamedTensorHandle) :=
  match assocFind pd.items localName with
  | some h =>
    if shapesCompatible h.shape shape then Except.ok (pd, h)
    else Except.error ParamError.ShapeMismatchError
  | none =>
    Except.ok
      ({ pd with
          items := pd.items ++ [(localName, ⟨pd.pfx ++ localName, shape, true, []⟩)] },
       ⟨pd.pfx ++ localName, shape, true, []⟩)

/-- The naming invariant of a registry: every handle's externally visible
name is the prefix concatenated with its local name, and local names are
unique. -/
def wellFormed (pd : ParameterRegistry) : Prop :=
  (∀ e ∈ pd.items, e.2.name = pd.pfx ++ e.1) ∧ (pd.items.map Prod.fst).Nodup

/-- The fully-qualified names of a registry's handles, in insertion
order. -/
def fqNames (pd : ParameterRegistry) : List String :=
  pd.items.map (fun e => e.2.name)

/-- Modelled from the spec: merging one registry's handles into an
accumulated mapping keyed by fully-qualified name, failing with
`NameCollisionError` when a fully-qualified name is already present. -/
def mergeItems (acc : List (String × NamedTensorHandle)) :
    List (String × NamedTensorHandle) →
    Except ParamError (List (String × NamedTensorHandle))
  | [] => Except.ok acc
  | e :: rest =>
    if (assocFind acc e.2.name).isSome then
      Except.error ParamError.NameCollisionError
    else mergeItems (acc ++ [(e.2.name, e.2)]) rest

/-- Modelled from the spec: merge the registries of a list of child
modules, in order, into an accumulated mapping keyed by fully-qualified
name; the first collision aborts with `NameCollisionError`. -/
def mergeAll (acc : List (String × NamedTensorHandle)) :
    List ParameterRegistry →
    Except ParamError (List (String × NamedTensorHandle))
  | [] => Except.ok acc
  | c :: cs =>
    match mergeItems acc c.items with
    | Except.error e => Except.error e
    | Except.ok acc2 => mergeAll acc2 cs

/-- Modelled from the spec: `collect_params()` on a module, aggregating
the module's own registry with each child's registry in order, keyed by
fully-qualified name. -/
def collectParams (root : ParameterRegistry)
    (children : List ParameterRegistry) :
    Except ParamError (List (String × NamedTensorHandle)) :=
  mergeAll (root.items.map (fun e => (e.2.name, e.2))) children

/-- Modelled from the spec: the shape state of a `MyDense` module whose
`in_units` may be declared `0`, meaning "infer from the first input's
trailing dimension"; gluon's deferred-shape machinery is library code not
under the repository's sources. -/
structure MyDenseState where
  units : ℕ
  inUnits : ℕ
  deriving DecidableEq, Repr

/-- Modelled from the spec: one forward call of a possibly shape-deferred
`MyDense`, at the level of shapes.  An unresolved module (`inUnits = 0`)
fixes its input dimension to the input's trailing dimension before
allocation; a resolved module requires the trailing dimension to match,
failing with `ShapeMismatchError` otherwise.  Returns the new module state
and the output shape `(batch, units)`. -/
def MyDenseState.forwardShape (st : MyDenseState) (batch trailing : ℕ) :
    Except ParamError (MyDenseState × (ℕ × ℕ)) :=
  if st.inUnits = 0 then
    Except.ok ({ st with inUnits := trailing }, (batch, st.units))
  else if st.inUnits = trailing then Except.ok (st, (batch, st.units))
  else Except.error ParamError.ShapeMismatchError

/-! Helper lemmas. -/

lemma sum_map_sub_const (l : List ℚ) (c : ℚ) :
    (l.map (fun v => v - c)).sum = l.sum - (l.length : ℚ) * c := by
  induction l with
  | nil => simp
  | cons a t ih =>
    simp only [List.map_cons, List.sum_cons, List.length_cons, ih]
    push_cast
    ring

lemma relu_nonneg (v : ℚ) : 0 ≤ relu v := le_max_right v 0

lemma runEpochAux_pos (losses : List ℚ) :
    ∀ (i : ℕ) (m : ℚ), i ≠ 0 → runEpochAux i m losses = losses.foldl emaStep m := by
  induction losses with
  | nil => intro i m _; rfl
  | cons l rest ih =>
    intro i m hi
    rw [runEpochAux, if_neg hi, List.foldl_cons]
    exact ih (i + 1) (emaStep m l) (Nat.succ_ne_zero i)

lemma assocFind_append_single {κ β : Type} [DecidableEq κ]
    (l : List (κ × β)) (k : κ) (b : β) (h : assocFind l k = none) :
    assocFind (l ++ [(k, b)]) k = some b := by
  induction l with
  | nil => simp [assocFind]
  | cons e rest ih =>
    by_cases hk : e.1 = k
    · simp [assocFind, hk] at h
    · rw [List.cons_append, assocFind, if_neg hk]
      rw [assocFind, if_neg hk] at h
      exact ih h

lemma assocFind_mem {κ β : Type} [DecidableEq κ] :
    ∀ {l : List (κ × β)} {k : κ} {b : β}, assocFind l k = some b → (k, b) ∈ l := by
  intro l
  induction l with
  | nil => intro k b h; simp [assocFind] at h
  | cons e rest ih =>
    intro k b h
    by_cases hk : e.1 = k
    · rw [assocFind, if_pos hk] at h
      obtain ⟨e1, e2⟩ := e
      obtain rfl : e2 = b := Option.some.inj h
      obtain rfl : e1 = k := hk
      exact List.mem_cons_self _ _
    · rw [assocFind, if_neg hk] at h
      exact List.mem_cons_of_mem _ (ih h)

lemma assocFind_none_iff {κ β : Type} [DecidableEq κ] :
    ∀ (l : List (κ × β)) (k : κ), assocFind l k = none ↔ k ∉ l.map Prod.fst := by
  intro l k
  induction l with
  | nil => simp [assocFind]
  | cons e rest ih =>
    by_cases hk : e.1 = k
    · simp [assocFind, hk]
    · rw [assocFind, if_neg hk]
      simp only [List.map_cons, List.mem_cons, ih]
      constructor
      · intro hnone hor
        rcases hor with hor | hor
        · exact hk hor.symm
        · exact hnone hor
      · intro hnot hmem
        exact hnot (Or.inr hmem)

lemma assocFind_isSome_iff {κ β : Type} [DecidableEq κ]
    (l : List (κ × β)) (k : κ) :
    (assocFind l k).isSome = true ↔ k ∈ l.map Prod.fst := by
  rw [Option.isSome_iff_ne_none, Ne, assocFind_none_iff, not_not]

lemma shapesCompatible_refl (s : Option (List ℕ)) :
    shapesCompatible s s = true := by
  cases s <;> simp [shapesCompatible]

lemma mergeItems_ok_spec :
    ∀ (items acc m : List (String × NamedTensorHandle)),
      mergeItems acc items = Except.ok m →
      m.map Prod.fst = acc.map Prod.fst ++ items.map (fun e => e.2.name) ∧
      (∀ x ∈ items.map (fun e => e.2.name), x ∉ acc.map Prod.fst) ∧
      (items.map (fun e => e.2.name)).Nodup := by
  intro items
  induction items with
  | nil =>
    intro acc m h
    obtain rfl : acc = m := Except.ok.inj h
    simp
  | cons e rest ih =>
    intro acc m h
    rw [mergeItems] at h
    by_cases hs : (assocFind acc e.2.name).isSome = true
    · rw [if_pos hs] at h
      exact absurd h (by simp)
    · rw [if_neg hs] at h
      have hnotmem : e.2.name ∉ acc.map Prod.fst := by
        rw [← assocFind_isSome_iff]
        exact hs
      obtain ⟨hkeys, hdisj, hnd⟩ := ih (acc ++ [(e.2.name, e.2)]) m h
      have hkeys' : (acc ++ [(e.2.name, e.2)]).map Prod.fst
          = acc.map Prod.fst ++ [e.2.name] := by simp
      refine ⟨?_, ?_, ?_⟩
      · rw [hkeys, hkeys', List.append_assoc]
        simp
      · intro x hx
        simp only [List.map_cons, List.mem_cons] at hx
        rcases hx with rfl | hx
        · exact hnotmem
        · have := hdisj x hx
          rw [hkeys'] at this
          intro hmem
          exact this (List.mem_append_left _ hmem)
      · simp only [List.map_cons, List.nodup_cons]
        refine ⟨?_, hnd⟩
        intro hmem
        have := hdisj e.2.name hmem
        rw [hkeys'] at this
        exact this (List.mem_append_right _ (List.mem_singleton_self _))

lemma mergeItems_progress :
    ∀ (items acc : List (String × NamedTensorHandle)),
      (∀ x ∈ items.map (fun e => e.2.name), x ∉ acc.map Prod.fst) →
      (items.map (fun e => e.2.name)).Nodup →
      mergeItems acc items
        = Except.ok (acc ++ items.map (fun e => (e.2.name, e.2))) := by
  intro items
  induction items with
  | nil => intro acc _ _; simp [mergeItems]
  | cons e rest ih =>
    intro acc hdisj hnd
    rw [mergeItems]
    have hne : assocFind acc e.2.name = none :=
      (assocFind_none_iff _ _).mpr (hdisj e.2.name (by simp))
    rw [if_neg (by rw [hne]; simp)]
    simp only [List.map_cons, List.nodup_cons] at hnd
    have hstep := ih (acc ++ [(e.2.name, e.2)]) ?_ hnd.2
    · rw [hstep]
      simp
    · intro x hx
      have hxacc : x ∉ acc.map Prod.fst := hdisj x (by simp [hx])
      have hxe : x ≠ e.2.name := by
        intro hcontra
        exact hnd.1 (hcontra ▸ hx)
      simp [hxacc, hxe]

lemma mergeItems_ok_or_collision :
    ∀ (items acc : List (String × NamedTensorHandle)),
      (∃ m, mergeItems acc items = Except.ok m) ∨
      mergeItems acc items = Except.error ParamError.NameCollisionError := by
  intro items
  induction items with
  | nil => intro acc; exact Or.inl ⟨acc, rfl⟩
  | cons e rest ih =>
    intro acc
    rw [mergeItems]
    by_cases hs : (assocFind acc e.2.name).isSome = true
    · rw [if_pos hs]
      exact Or.inr rfl
    · rw [if_neg hs]
      exact ih (acc ++ [(e.2.name, e.2)])

/-! Claim theorems. -/

/-- C1: For every MyDense module with weight shaped `(in_units, out_units)`
and bias shaped `(out_units,)`, and every input with trailing dimension
`in_units`, `forward(x)` returns `activation(x·weight + bias)` where
`activation(v) = v if v > 0 else 0`, elementwise. -/
theorem myDense_forward_affine_rectifier {m n k : ℕ}
    (w : Matrix (Fin n) (Fin k) ℚ) (b : Fin k → ℚ)
    (x : Matrix (Fin m) (Fin n) ℚ) (i : Fin m) (j : Fin k) :
    MyDense.forward w b x i j =
      (if 0 < (∑ l, x i l * w l j) + b j
       then (∑ l, x i l * w l j) + b j else 0) := by
  show relu ((∑ l, x i l * w l j) + b j) = _
  unfold relu
  rcases lt_or_le 0 ((∑ l, x i l * w l j) + b j) with hpos | hnp
  · rw [if_pos hpos, max_eq_left hpos.le]
  · rw [if_neg (not_lt.mpr hnp), max_eq_right hnp]

/-- C2: For every (nonempty) input tensor `X`, `CenteredLayer.forward X`
equals `X` minus the mean of all elements of `X`, has the same shape, and
its mean is exactly `0` (so certainly within any numerical tolerance). -/
theorem centeredLayer_forward_centers (X : Tensor) (h : X.data ≠ []) :
    (CenteredLayer.forward X).shape = X.shape ∧
    (CenteredLayer.forward X).data = X.data.map (fun v => v - ndMean X) ∧
    ndMean (CenteredLayer.forward X) = 0 := by
  refine ⟨rfl, rfl, ?_⟩
  have hn : (X.data.length : ℚ) ≠ 0 := by
    have : X.data.length ≠ 0 := by
      intro hl
      exact h (List.length_eq_zero.mp hl)
    exact_mod_cast this
  show (X.data.map (fun v => v - ndMean X)).sum
      / ((X.data.map (fun v => v - ndMean X)).length : ℚ) = 0
  rw [sum_map_sub_const, List.length_map]
  have hcancel : (X.data.length : ℚ) * ndMean X = X.data.sum := by
    unfold ndMean
    field_simp
  rw [hcancel, sub_self, zero_div]

/-- C2 witness: the notebook's own example input `[1, 2, 3, 4, 5]`. -/
theorem centeredLayer_forward_centers_witness :
    (Tensor.mk [5] [1, 2, 3, 4, 5]).data ≠ [] ∧
    ((CenteredLayer.forward ⟨[5], [1, 2, 3, 4, 5]⟩).shape
        = (Tensor.mk [5] [1, 2, 3, 4, 5]).shape ∧
      (CenteredLayer.forward ⟨[5], [1, 2, 3, 4, 5]⟩).data
        = (Tensor.mk [5] [1, 2, 3, 4, 5]).data.map
            (fun v => v - ndMean ⟨[5], [1, 2, 3, 4, 5]⟩) ∧
      ndMean (CenteredLayer.forward ⟨[5], [1, 2, 3, 4, 5]⟩) = 0) :=
  ⟨by decide, centeredLayer_forward_centers ⟨[5], [1, 2, 3, 4, 5]⟩ (by decide)⟩

/-- C4: a MyDense module declared with `in_units = 0` resolves its input
dimension to `784` on the first forward call with a `(N, 784)` input, and
a later forward call with a `(N', 10)` input fails with
`ShapeMismatchError`. -/
theorem myDense_deferred_shape (u N N2 : ℕ) :
    MyDenseState.forwardShape ⟨u, 0⟩ N 784
        = Except.ok (⟨u, 784⟩, (N, u)) ∧
    MyDenseState.forwardShape ⟨u, 784⟩ N2 10
        = Except.error ParamError.ShapeMismatchError := by
  exact ⟨rfl, rfl⟩

/-- C7: `Parameter.data(ctx)` on a fresh handle fails with
`UninitializedError`; after `initialize` on that context it returns a
tensor of exactly the declared shape. -/
theorem param_data_lifecycle (nm : String) (s : List ℕ) (g : Bool)
    (ctx : ℕ) (initFn : List ℕ → ℕ → List ℚ) :
    NamedTensorHandle.data ⟨nm, some s, g, []⟩ ctx
        = Except.error ParamError.UninitializedError ∧
    NamedTensorHandle.initStorage ⟨nm, some s, g, []⟩ initFn [ctx]
        = Except.ok ⟨nm, some s, g, [(ctx, ⟨s, initFn s ctx⟩)]⟩ ∧
    NamedTensorHandle.data ⟨nm, some s, g, [(ctx, ⟨s, initFn s ctx⟩)]⟩ ctx
        = Except.ok ⟨s, initFn s ctx⟩ ∧
    (Tensor.mk s (initFn s ctx)).shape = s := by
  refine ⟨rfl, rfl, ?_, rfl⟩
  simp [NamedTensorHandle.data, assocFind]

/-- C8: the first custom dense example (`MyDense(20, in_units=10)`) on a
batch of two rows of dummy input produces an output of shape `(2, 20)`
whose values are all nonnegative, whatever the initialized parameter
values; and the rectifier guarantee likewise holds for the three-layer
`784→128→64→10` network's output. -/
theorem dense_example_rectifier_output
    (w : Matrix (Fin 10) (Fin 20) ℚ) (b : Fin 20 → ℚ)
    (x : Matrix (Fin 2) (Fin 10) ℚ)
    (w1 : Matrix (Fin 784) (Fin 128) ℚ) (b1 : Fin 128 → ℚ)
    (w2 : Matrix (Fin 128) (Fin 64) ℚ) (b2 : Fin 64 → ℚ)
    (w3 : Matrix (Fin 64) (Fin 10) ℚ) (b3 : Fin 10 → ℚ)
    (y : Matrix (Fin 2) (Fin 784) ℚ) :
    (tensorOfMatrix (MyDense.forward w b x)).shape = [2, 20] ∧
    (∀ v ∈ (tensorOfMatrix (MyDense.forward w b x)).data, 0 ≤ v) ∧
    (∀ i j, 0 ≤ MyDense.forward w3 b3
        (MyDense.forward w2 b2 (MyDense.forward w1 b1 y)) i j) := by
  refine ⟨rfl, ?_, ?_⟩
  · intro v hv
    simp only [tensorOfMatrix, List.mem_flatMap, List.mem_map] at hv
    obtain ⟨i, -, j, -, hval⟩ := hv
    rw [← hval]
    exact relu_nonneg _
  · intro i j
    exact relu_nonneg _

/-- C9 counterexample: the claim's single global moving average, seeded
once by the very first batch, disagrees with the training driver at two
epochs of one batch each with mean losses `1` then `3`: the driver
re-seeds at the second epoch's first batch and reports `3`, while the
claimed recurrence gives `0.99·1 + 0.01·3 = 51/50`. -/
theorem movingLoss_reseed_counterexample :
    runTraining [[1], [3]] = 3 ∧ specGlobalEMA [1, 3] = 51 / 50 ∧
    runTraining [[1], [3]] ≠ specGlobalEMA [1, 3] := by
  have h1 : runTraining [[1], [3]] = 3 := rfl
  have h2 : specGlobalEMA [1, 3] = 51 / 50 := by
    show emaStep 1 3 = 51 / 50
    unfold emaStep
    norm_num
  refine ⟨h1, h2, ?_⟩
  rw [h1, h2]
  norm_num

/-- C9 (amended): within each epoch, the moving loss is set to the epoch's
first batch's mean loss at batch index 0 — discarding the value carried in
from the previous epoch — and at every later batch of the epoch it is
updated by `moving_loss' = 0.99·moving_loss + 0.01·mean(loss)`. -/
theorem runEpoch_ema_reseeded (m0 l : ℚ) (rest : List ℚ) :
    runEpoch m0 (l :: rest) = rest.foldl emaStep l := by
  have hstep : runEpoch m0 (l :: rest) = runEpochAux 1 l rest := rfl
  rw [hstep]
  exact runEpochAux_pos rest 1 l one_ne_zero

/-- C3: registering a name twice with a compatible shape returns the same
registry state and the same handle both times; a further call with an
incompatible shape fails with `ShapeMismatchError`. -/
theorem pd_get_idempotent (pd : ParameterRegistry) (n : String)
    (s s2 : Option (List ℕ)) (pd2 : ParameterRegistry)
    (h : NamedTensorHandle)
    (hget : pd.get n s = Except.ok (pd2, h)) :
    pd2.get n s = Except.ok (pd2, h) ∧
    (shapesCompatible h.shape s2 = false →
      pd2.get n s2 = Except.error ParamError.ShapeMismatchError) := by
  unfold ParameterRegistry.get at hget
  split at hget
  · -- local name already present
    rename_i h0 heq
    split at hget
    · rename_i hc
      obtain ⟨h1, h2⟩ := Prod.mk.inj (Except.ok.inj hget)
      subst h1
      subst h2
      constructor
      · unfold ParameterRegistry.get
        simp only [heq]
        rw [if_pos hc]
      · intro hbad
        unfold ParameterRegistry.get
        simp only [heq]
        rw [if_neg (by simp [hbad])]
    · exact absurd hget (by simp)
  · -- fresh registration
    rename_i heq
    obtain ⟨h1, h2⟩ := Prod.mk.inj (Except.ok.inj hget)
    subst h1
    subst h2
    have hfound :
        assocFind (pd.items ++ [(n, (⟨pd.pfx ++ n, s, true, []⟩ : NamedTensorHandle))]) n
          = some ⟨pd.pfx ++ n, s, true, []⟩ :=
      assocFind_append_single pd.items n _ heq
    constructor
    · unfold ParameterRegistry.get
      simp only [hfound]
      rw [if_pos (shapesCompatible_refl s)]
    · intro hbad
      unfold ParameterRegistry.get
      simp only [hfound]
      rw [if_neg (by simp [hbad])]

/-- C3 witness: a fresh registry with prefix `b_`; registering `w` at
shape `[2]`, re-registering at the same shape, and failing at `[3]`. -/
theorem pd_get_idempotent_witness :
    ParameterRegistry.get ⟨"b_", []⟩ "w" (some [2])
        = Except.ok
            (⟨"b_", [("w", ⟨"b_" ++ "w", some [2], true, []⟩)]⟩,
             ⟨"b_" ++ "w", some [2], true, []⟩) ∧
    (ParameterRegistry.get
          ⟨"b_", [("w", ⟨"b_" ++ "w", some [2], true, []⟩)]⟩ "w" (some [2])
        = Except.ok
            (⟨"b_", [("w", ⟨"b_" ++ "w", some [2], true, []⟩)]⟩,
             ⟨"b_" ++ "w", some [2], true, []⟩) ∧
      (shapesCompatible
            (NamedTensorHandle.mk ("b_" ++ "w") (some [2]) true []).shape
            (some [3]) = false →
        ParameterRegistry.get
            ⟨"b_", [("w", ⟨"b_" ++ "w", some [2], true, []⟩)]⟩ "w" (some [3])
          = Except.error ParamError.ShapeMismatchError)) :=
  ⟨rfl,
   pd_get_idempotent ⟨"b_", []⟩ "w" (some [2]) (some [3]) _ _ rfl⟩

/-- C5: registration preserves the registry's naming invariant — every
handle's externally visible name is the prefix concatenated with its local
name and local names stay unique — and the handle returned for local name
`n` is named `prefix ++ n`. -/
theorem pd_get_naming_invariant (pd : ParameterRegistry) (n : String)
    (s : Option (List ℕ)) (pd2 : ParameterRegistry) (h : NamedTensorHandle)
    (hwf : wellFormed pd) (hget : pd.get n s = Except.ok (pd2, h)) :
    wellFormed pd2 ∧ h.name = pd2.pfx ++ n := by
  unfold ParameterRegistry.get at hget
  split at hget
  · -- existing handle returned
    rename_i h0 heq
    split at hget
    · obtain ⟨h1, h2⟩ := Prod.mk.inj (Except.ok.inj hget)
      subst h1
      subst h2
      exact ⟨hwf, hwf.1 (n, h0) (assocFind_mem heq)⟩
    · exact absurd hget (by simp)
  · -- fresh registration
    rename_i heq
    obtain ⟨h1, h2⟩ := Prod.mk.inj (Except.ok.inj hget)
    subst h1
    subst h2
    refine ⟨⟨?_, ?_⟩, rfl⟩
    · intro e he
      rcases List.mem_append.mp he with he | he
      · exact hwf.1 e he
      · rw [List.mem_singleton.mp he]
    · show ((pd.items ++ [(n, _)]).map Prod.fst).Nodup
      rw [List.map_append, List.nodup_append]
      refine ⟨hwf.2, List.nodup_singleton n, ?_⟩
      intro a ha hb
      have han : a = n := by simpa using hb
      subst han
      exact (assocFind_none_iff pd.items a).mp heq ha

/-- C5 witness: a fresh well-formed registry with prefix `b_` registering
local name `w`. -/
theorem pd_get_naming_invariant_witness :
    wellFormed ⟨"b_", []⟩ ∧
    (wellFormed
        ⟨"b_", [("w", ⟨"b_" ++ "w", some [2], true, []⟩)]⟩ ∧
      ("b_" ++ "w" : String)
        = (ParameterRegistry.mk "b_"
            [("w", ⟨"b_" ++ "w", some [2], true, []⟩)]).pfx ++ "w") :=
  ⟨⟨fun e he => absurd he (List.not_mem_nil e), List.nodup_nil⟩,
   pd_get_naming_invariant ⟨"b_", []⟩ "w" (some [2]) _ _
     ⟨fun e he => absurd he (List.not_mem_nil e), List.nodup_nil⟩ rfl⟩

/-- C6: on a two-level tree — a root with an empty own registry and two
children — `collect_params` yields exactly the children's fully-qualified
names in order with no duplicates when the children's name sets are
internally duplicate-free and mutually disjoint, and fails with
`NameCollisionError` whenever the two children share a fully-qualified
name. -/
theorem collectParams_two_level (p : String) (c1 c2 : ParameterRegistry) :
    ((fqNames c1).Nodup → (fqNames c2).Nodup →
      (∀ x ∈ fqNames c1, x ∉ fqNames c2) →
      ∃ m, collectParams ⟨p, []⟩ [c1, c2] = Except.ok m ∧
        m.map Prod.fst = fqNames c1 ++ fqNames c2 ∧
        (m.map Prod.fst).Nodup) ∧
    ((∃ x, x ∈ fqNames c1 ∧ x ∈ fqNames c2) →
      collectParams ⟨p, []⟩ [c1, c2]
        = Except.error ParamError.NameCollisionError) := by
  have keys1 : (c1.items.map (fun e => (e.2.name, e.2))).map Prod.fst
      = fqNames c1 := by simp [fqNames]
  have keys2 : (c2.items.map (fun e => (e.2.name, e.2))).map Prod.fst
      = fqNames c2 := by simp [fqNames]
  constructor
  · intro h1 h2 hdisj
    have e1 : mergeItems [] c1.items
        = Except.ok (([] : List (String × NamedTensorHandle)) ++ c1.items.map (fun e => (e.2.name, e.2))) :=
      mergeItems_progress c1.items [] (by simp) h1
    have hd2 : ∀ x ∈ c2.items.map (fun e => e.2.name),
        x ∉ (([] : List (String × NamedTensorHandle)) ++ c1.items.map (fun e => (e.2.name, e.2))).map Prod.fst := by
      intro x hx hmem
      rw [List.nil_append, keys1] at hmem
      exact hdisj x hmem hx
    have e2 : mergeItems (([] : List (String × NamedTensorHandle)) ++ c1.items.map (fun e => (e.2.name, e.2))) c2.items
        = Except.ok ((([] : List (String × NamedTensorHandle)) ++ c1.items.map (fun e => (e.2.name, e.2)))
            ++ c2.items.map (fun e => (e.2.name, e.2))) :=
      mergeItems_progress c2.items _ hd2 h2
    refine ⟨(([] : List (String × NamedTensorHandle)) ++ c1.items.map (fun e => (e.2.name, e.2)))
        ++ c2.items.map (fun e => (e.2.name, e.2)), ?_, ?_, ?_⟩
    · unfold collectParams
      show mergeAll [] [c1, c2] = _
      simp only [mergeAll, e1, e2]
    · rw [List.map_append, List.nil_append, keys1, keys2]
    · rw [List.map_append, List.nil_append, keys1, keys2,
        List.nodup_append]
      exact ⟨h1, h2, fun a ha hb => hdisj a ha hb⟩
  · rintro ⟨x, hx1, hx2⟩
    rcases mergeItems_ok_or_collision c1.items [] with ⟨m1, hm1⟩ | herr
    · rcases mergeItems_ok_or_collision c2.items m1 with ⟨m2, hm2⟩ | herr2
      · have spec1 := mergeItems_ok_spec c1.items [] m1 hm1
        have spec2 := mergeItems_ok_spec c2.items m1 m2 hm2
        have hxm1 : x ∈ m1.map Prod.fst := by
          rw [spec1.1, List.map_nil, List.nil_append]
          exact hx1
        exact absurd hxm1 (spec2.2.1 x hx2)
      · unfold collectParams
        show mergeAll [] [c1, c2] = _
        simp only [mergeAll, hm1, herr2]
    · unfold collectParams
      show mergeAll [] [c1, c2] = _
      simp only [mergeAll, herr]

/-- C6 witness: two children with prefixes `a_` and `c_`, each holding one
local name `w`, so the fully-qualified names `a_w` and `c_w` are distinct. -/
theorem collectParams_two_level_witness :
    ((fqNames ⟨"a_", [("w", ⟨"a_w", none, true, []⟩)]⟩).Nodup ∧
      (fqNames ⟨"c_", [("w", ⟨"c_w", none, true, []⟩)]⟩).Nodup ∧
      (∀ x ∈ fqNames ⟨"a_", [("w", ⟨"a_w", none, true, []⟩)]⟩,
        x ∉ fqNames ⟨"c_", [("w", ⟨"c_w", none, true, []⟩)]⟩)) ∧
    (∃ m, collectParams ⟨"", []⟩
          [⟨"a_", [("w", ⟨"a_w", none, true, []⟩)]⟩,
           ⟨"c_", [("w", ⟨"c_w", none, true, []⟩)]⟩] = Except.ok m ∧
        m.map Prod.fst
          = fqNames ⟨"a_", [("w", ⟨"a_w", none, true, []⟩)]⟩
            ++ fqNames ⟨"c_", [("w", ⟨"c_w", none, true, []⟩)]⟩ ∧
        (m.map Prod.fst).Nodup) :=
  ⟨⟨by decide, by decide, by decide⟩,
   (collectParams_two_level ""
      ⟨"a_", [("w", ⟨"a_w", none, true, []⟩)]⟩
      ⟨"c_", [("w", ⟨"c_w", none, true, []⟩)]⟩).1
     (by decide) (by decide) (by decide)⟩

/-- C10: because the `Accuracy` metric object is created once at module
level and never reset, the value returned by the `k`-th call to
`evaluate_accuracy` is the accuracy accumulated over the batches of calls
`1` through `k` combined; and the returned value is not a function of the
call's arguments alone — the same iterator evaluated from two different
accumulated metric states yields two different values. -/
theorem evaluate_accuracy_accumulates {α : Type} (net : α → List ℕ)
    (m0 : AccMetric) (calls : List (List (α × List ℕ))) (k : ℕ)
    (hk : k < calls.length) :
    (evaluate_accuracy net
        ((calls.take k).foldl (runEvalBatches net) m0) calls[k]).2
      = accGet ((calls.take (k + 1)).foldl (runEvalBatches net) m0) ∧
    (evaluate_accuracy (fun _ : Unit => [0]) ⟨0, 0⟩ [((), [0])]).2
      ≠ (evaluate_accuracy (fun _ : Unit => [0]) ⟨0, 1⟩ [((), [0])]).2 := by
  constructor
  · have ht : calls.take (k + 1) = calls.take k ++ [calls[k]] := by
      rw [List.take_succ, List.getElem?_eq_getElem hk]
      rfl
    rw [ht, List.foldl_append]
    rfl
  · show accGet ⟨0 + 1, 0 + 1⟩ ≠ accGet ⟨0 + 1, 1 + 1⟩
    unfold accGet
    norm_num

/-- C10 witness: one call, on a single one-batch iterator whose
prediction matches the label, starting from the fresh module-level
metric. -/
theorem evaluate_accuracy_accumulates_witness :
    0 < 1 ∧
    ((evaluate_accuracy (fun _ : Unit => [0])
          ((([[((), [0])]] : List (List (Unit × List ℕ))).take 0).foldl
            (runEvalBatches (fun _ : Unit => [0])) ⟨0, 0⟩)
          ([[((), [0])]] : List (List (Unit × List ℕ)))[0]).2
        = accGet ((([[((), [0])]] : List (List (Unit × List ℕ))).take 1).foldl
            (runEvalBatches (fun _ : Unit => [0])) ⟨0, 0⟩) ∧
      (evaluate_accuracy (fun _ : Unit => [0]) ⟨0, 0⟩ [((), [0])]).2
        ≠ (evaluate_accuracy (fun _ : Unit => [0]) ⟨0, 1⟩ [((), [0])]).2) :=
  ⟨Nat.zero_lt_one,
   evaluate_accuracy_accumulates (fun _ : Unit => [0]) ⟨0, 0⟩
     [[((), [0])]] 0 (by decide)⟩
